import Mathlib

/-!
Verification of the String-Art-Portrait-Generator core (`Backend.py`,
class `ImprovedStringArtGenerator`).

The Python methods are embedded shallowly:

* machine floats (`np.float32` darkness values, score accumulation) become `ℚ`;
* the mutable `current_canvas` numpy array becomes a function `Int → Int → ℚ`,
  indexed as `canvas y x` to mirror `current_canvas[y, x]`;
* the memoised `line_cache` dict becomes an association list keyed by the
  normalised nail pair;
* `random.randint(0, num_nails - 1)` draws become an explicit stream
  `rng : Nat → Nat` reduced modulo `num_nails` together with a draw index,
  so runs are reproducible functions of the stream;
* the nail-position table `self.nails` (produced once by `generate_nails`
  from floating-point trigonometry) is passed to the greedy loop as a
  parameter `nails : Nat → Int × Int`; every theorem about the loop is
  proved for an arbitrary table, hence in particular for the generated one;
* the `while True` of `bresenham_line` becomes fuel-indexed recursion
  returning `Option`; the termination theorem shows the fuel bound used by
  the wrapper is always sufficient.

Constants hard-coded in the source are kept as written there:
`min_score_threshold = 0.5`, stuck bound `50`, stop bound `100`,
`recent_limit = 20`.  `line_opacity` and `min_distance` are fields of the
generator state, defaulting to the values set in `__init__` (25 and 15).
-/

/-- Parameters of `ImprovedStringArtGenerator.__init__` together with the
two algorithm fields it sets.  The constructor stores the arguments
unmodified; there is no validation or clamping in the source. -/
structure Gen where
  num_nails : Nat
  max_lines : Nat
  canvas_size : Int
  line_opacity : ℚ := 25
  min_distance : Int := 15

/-- The bounds test `0 <= x < canvas_size and 0 <= y < canvas_size`
applied to a point `(x, y)`, as in `bresenham_line` (line 132),
`calculate_line_score` (line 163) and the canvas update (line 268). -/
def inBounds (cs : Int) (p : Int × Int) : Bool :=
  decide (0 ≤ p.1 ∧ p.1 < cs ∧ 0 ≤ p.2 ∧ p.2 < cs)

/-- One pass of the `while True` body of `bresenham_line` (lines 131-144),
made total by a fuel argument: `none` means the fuel ran out before the
stepped point reached `(x2, y2)`. -/
def bresenhamGo (cs x2 y2 dx dy sx sy : Int) :
    Nat → Int → Int → Int → List (Int × Int) → Option (List (Int × Int))
  | 0, _, _, _, _ => none
  | fuel + 1, x, y, err, pts =>
    let pts1 := if inBounds cs (x, y) then pts ++ [(x, y)] else pts
    if x = x2 ∧ y = y2 then some pts1
    else
      bresenhamGo cs x2 y2 dx dy sx sy fuel
        (if 2 * err > -dy then x + sx else x)
        (if 2 * err < dx then y + sy else y)
        (if 2 * err < dx then (if 2 * err > -dy then err - dy else err) + dx
         else (if 2 * err > -dy then err - dy else err))
        pts1

/-- The loop of `bresenham_line` started from `(x1, y1)` with the
initialisation of lines 122-129 and the stated fuel. -/
def bresenhamLoop (cs x1 y1 x2 y2 : Int) (fuel : Nat) : Option (List (Int × Int)) :=
  bresenhamGo cs x2 y2 ((x2 - x1).natAbs : Int) ((y2 - y1).natAbs : Int)
    (if x1 < x2 then 1 else -1) (if y1 < y2 then 1 else -1)
    fuel x1 y1 (((x2 - x1).natAbs : Int) - ((y2 - y1).natAbs : Int)) []

/-- `bresenham_line` (lines 120-146): Bresenham rasterisation of the
segment from `(x1, y1)` to `(x2, y2)`, keeping only in-bounds points.
The fuel `|x2-x1| + |y2-y1| + 1` is proved sufficient below (claim C10),
so the `getD []` default is never taken. -/
def bresenham_line (cs x1 y1 x2 y2 : Int) : List (Int × Int) :=
  (bresenhamLoop cs x1 y1 x2 y2 ((x2 - x1).natAbs + (y2 - y1).natAbs + 1)).getD []

/-- The `line_cache` dict: association list from the normalised nail pair
to the rasterised point list. -/
def Cache : Type := List ((Nat × Nat) × List (Int × Int))

/-- `get_line_points` (lines 107-118): look the pair up under the key
`(min start_nail end_nail, max start_nail end_nail)`; on a miss,
rasterise from the position of `start_nail` to the position of
`end_nail` (in that traversal order) and memoise the result.  Returns
the points together with the possibly-grown cache. -/
def get_line_points (g : Gen) (nails : Nat → Int × Int) (cache : Cache)
    (start_nail end_nail : Nat) : List (Int × Int) × Cache :=
  let key := (min start_nail end_nail, max start_nail end_nail)
  match List.lookup key cache with
  | some pts => (pts, cache)
  | none =>
    let pts := bresenham_line g.canvas_size (nails start_nail).1 (nails start_nail).2
      (nails end_nail).1 (nails end_nail).2
    (pts, (key, pts) :: cache)

/-- The per-pixel contribution of lines 165-181 of `calculate_line_score`:
reward `min(target - current, opacity)` where more darkness is needed,
penalty `-(min(255, current + opacity) - target) * 0.5` otherwise. -/
def pixelScore (opacity t c : ℚ) : ℚ :=
  if t > c then min (t - c) opacity else -(min 255 (c + opacity) - t) * (1 / 2)

/-- The accumulator step of the `for x, y in line_points` loop of
`calculate_line_score` (lines 162-184): add the pixel contribution and
bump `valid_points` for in-bounds points, skip the rest. -/
def scorePoint (g : Gen) (target canvas : Int → Int → ℚ)
    (acc : ℚ × Nat) (p : Int × Int) : ℚ × Nat :=
  if inBounds g.canvas_size p then
    (acc.1 + pixelScore g.line_opacity (target p.2 p.1) (canvas p.2 p.1), acc.2 + 1)
  else acc

/-- `calculate_line_score` (lines 148-189): `0` for an empty point list,
`0` when no point is in bounds, otherwise `total_score / valid_points`.
The cache threading of `get_line_points` is kept. -/
def calculate_line_score (g : Gen) (nails : Nat → Int × Int)
    (target canvas : Int → Int → ℚ) (cache : Cache)
    (start_nail end_nail : Nat) : ℚ × Cache :=
  let r := get_line_points g nails cache start_nail end_nail
  if r.1 = [] then (0, r.2)
  else
    let tv := r.1.foldl (scorePoint g target canvas) (0, 0)
    if tv.2 = 0 then (0, r.2) else (tv.1 / (tv.2 : ℚ), r.2)

/-- `is_valid_connection` (lines 191-198): the circular index distance
`min(|t - c|, num_nails - |t - c|)` must be at least `min_distance`. -/
def is_valid_connection (g : Gen) (current_nail target_nail : Nat) : Bool :=
  let d : Int := |(target_nail : Int) - (current_nail : Int)|
  decide (g.min_distance ≤ min d ((g.num_nails : Int) - d))

/-- `min_score_threshold = 0.5` (line 224). -/
def min_score_threshold : ℚ := 1 / 2

/-- `recent_limit = 20` (line 220). -/
def recent_limit : Nat := 20

/-- The body of the candidate scan (lines 237-255) for one `target_nail`:
skip the current nail, invalid connections and recently used pairs;
otherwise score the line and keep the strictly better candidate.  The
accumulator carries the best `(nail, score)` (`none` plays the role of
`best_score = -inf`, which any real score beats) and the cache. -/
def scanStep (g : Gen) (nails : Nat → Int × Int) (target canvas : Int → Int → ℚ)
    (recent : List (Nat × Nat)) (current : Nat)
    (acc : Option (Nat × ℚ) × Cache) (t : Nat) : Option (Nat × ℚ) × Cache :=
  if t = current then acc
  else if is_valid_connection g current t then
    if (min current t, max current t) ∈ recent then acc
    else
      let r := calculate_line_score g nails target canvas acc.2 current t
      match acc.1 with
      | none => (some (t, r.1), r.2)
      | some (bn, bs) => if r.1 > bs then (some (t, r.1), r.2) else (some (bn, bs), r.2)
  else acc

/-- The full scan `for target_nail in range(self.num_nails)` of one
iteration of the greedy loop. -/
def scanCandidates (g : Gen) (nails : Nat → Int × Int) (target canvas : Int → Int → ℚ)
    (recent : List (Nat × Nat)) (current : Nat) (cache : Cache) :
    Option (Nat × ℚ) × Cache :=
  (List.range g.num_nails).foldl (scanStep g nails target canvas recent current)
    (none, cache)

/-- The mutable state of one run of `generate_string_art_greedy`:
`current_canvas`, `self.paths`, `current_nail`, `recent_connections`,
`low_score_count`, the line cache, the random-stream position, and two
instrumentation counters — `itersRun` counts executed loop iterations and
`commits` counts successful commits; `terminated` records that the
`break` of line 296 fired, after which no further iteration executes. -/
structure LoopState where
  canvas : Int → Int → ℚ
  paths : List (Nat × Nat)
  current_nail : Nat
  recent : List (Nat × Nat)
  low_score_count : Nat
  cache : Cache
  rngIdx : Nat
  itersRun : Nat
  commits : Nat
  terminated : Bool

/-- One pixel of the canvas update of a commit (lines 267-269): if the
point is in bounds, set `canvas[y, x] = min(255, canvas[y, x] + opacity)`. -/
def drawPoint (cs : Int) (opacity : ℚ) (canvas : Int → Int → ℚ)
    (p : Int × Int) : Int → Int → ℚ :=
  if inBounds cs p then
    fun yy xx => if yy = p.2 ∧ xx = p.1 then min 255 (canvas p.2 p.1 + opacity) else canvas yy xx
  else canvas

/-- The canvas update of a commit (lines 266-269): for each in-bounds
point of the line, set the pixel to `min(255, value + opacity)`. -/
def drawLine (cs : Int) (opacity : ℚ) (canvas : Int → Int → ℚ)
    (pts : List (Int × Int)) : Int → Int → ℚ :=
  pts.foldl (drawPoint cs opacity) canvas

/-- The commit branch (lines 258-280): append `{currentNail, bestNail}`
to the path, draw the line, add the normalised pair to
`recent_connections` (a set: adding a member is a no-op), evict a member
when the set exceeds `recent_limit` (CPython `set.pop` removes an
arbitrary element; the claims below do not depend on which, and the
embedding removes the last of the list), move to the best nail and reset
the low-score counter. -/
def commitStep (g : Gen) (nails : Nat → Int × Int) (st : LoopState)
    (bn : Nat) (cache : Cache) : LoopState :=
  let r := get_line_points g nails cache st.current_nail bn
  let key := (min st.current_nail bn, max st.current_nail bn)
  let recent1 := if key ∈ st.recent then st.recent else key :: st.recent
  let recent2 := if recent1.length > recent_limit then recent1.dropLast else recent1
  { st with
    canvas := drawLine g.canvas_size g.line_opacity st.canvas r.1
    paths := st.paths ++ [(st.current_nail, bn)]
    current_nail := bn
    recent := recent2
    low_score_count := 0
    cache := r.2
    commits := st.commits + 1 }

/-- The no-good-connection branch (lines 282-296): bump
`low_score_count`; past the stuck bound 50, jump to a random nail, clear
`recent_connections` and reset the counter; past the stop bound 100
(checked after the possible reset, as in the source), set the break
flag. -/
def stepNoGood (g : Gen) (rng : Nat → Nat) (st : LoopState) (cache : Cache) : LoopState :=
  let lsc := st.low_score_count + 1
  let jump := lsc > 50
  let cur := if jump then rng st.rngIdx % g.num_nails else st.current_nail
  let lsc2 := if jump then 0 else lsc
  let recent := if jump then [] else st.recent
  let idx := if jump then st.rngIdx + 1 else st.rngIdx
  { st with
    current_nail := cur
    recent := recent
    low_score_count := lsc2
    cache := cache
    rngIdx := idx
    terminated := decide (lsc2 > 100) }

/-- One iteration of `for iteration in range(self.max_lines)`
(lines 228-296).  A state on which the break already fired is left
unchanged — the `for` loop body no longer runs. -/
def stepIter (g : Gen) (nails : Nat → Int × Int) (target : Int → Int → ℚ)
    (rng : Nat → Nat) (st : LoopState) : LoopState :=
  if st.terminated then st
  else
    match scanCandidates g nails target st.canvas st.recent st.current_nail st.cache with
    | (some (bn, bs), cache2) =>
      if bs > min_score_threshold then
        commitStep g nails { st with itersRun := st.itersRun + 1 } bn cache2
      else stepNoGood g rng { st with itersRun := st.itersRun + 1 } cache2
    | (none, cache2) => stepNoGood g rng { st with itersRun := st.itersRun + 1 } cache2

/-- The state at the top of the loop (lines 211-224): zero canvas, empty
path, random starting nail (the first draw of the stream), empty recent
set and cache, zero counters. -/
def initState (g : Gen) (rng : Nat → Nat) : LoopState :=
  { canvas := fun _ _ => 0
    paths := []
    current_nail := rng 0 % g.num_nails
    recent := []
    low_score_count := 0
    cache := []
    rngIdx := 1
    itersRun := 0
    commits := 0
    terminated := false }

/-- The loop state after `t` iterations of `generate_string_art_greedy`. -/
def runStates (g : Gen) (nails : Nat → Int × Int) (target : Int → Int → ℚ)
    (rng : Nat → Nat) (t : Nat) : LoopState :=
  (stepIter g nails target rng)^[t] (initState g rng)

/-- `generate_string_art_greedy` (lines 200-305): run the greedy loop for
`max_lines` iterations and return the final state; the result dictionary
of line 301 carries `self.paths` of this state (the nail list is the
input table, the message is presentation only). -/
def generate_string_art_greedy (g : Gen) (nails : Nat → Int × Int)
    (target : Int → Int → ℚ) (rng : Nat → Nat) : LoopState :=
  runStates g nails target rng g.max_lines

/-- The continuity predicate of the spec: every later path entry starts
at the nail where the previous entry ended. -/
def isChained : List (Nat × Nat) → Bool
  | [] => true
  | [_] => true
  | a :: b :: rest => (a.2 == b.1) && isChained (b :: rest)

/-- A three-nail position table used for concrete runs: nail 0 at (0,0),
nail 1 at (1,0), nail 2 at (0,1), all inside a 2x2 canvas. -/
def nailsABC : Nat → Int × Int :=
  fun i => if i = 0 then (0, 0) else if i = 1 then (1, 0) else (0, 1)

/-- The all-zero darkness target. -/
def target0 : Int → Int → ℚ := fun _ _ => 0

/-- A uniformly maximal darkness target. -/
def target255 : Int → Int → ℚ := fun _ _ => 255

/-- The constant-zero random stream. -/
def rngZero : Nat → Nat := fun _ => 0

/-- A random stream whose second draw (the first stuck jump) lands on
nail 2; all other draws are 0. -/
def rngC4 : Nat → Nat := fun k => if k = 1 then 2 else 0

/-- A small generator over the `nailsABC` table: 3 nails, 2x2 canvas,
minimum separation 1, the source's opacity 25, and the given
iteration budget. -/
def gSmall (ml : Nat) : Gen :=
  { num_nails := 3, max_lines := ml, canvas_size := 2, line_opacity := 25, min_distance := 1 }

/-- A parameter set the spec calls invalid (`num_nails = 1`), stored by
`__init__` exactly as given, with the constructor's default
`line_opacity = 25` and `min_distance = 15`. -/
def gInvalid : Gen := { num_nails := 1, max_lines := 5, canvas_size := 2 }

theorem runStates_succ (g : Gen) (nails : Nat → Int × Int) (target : Int → Int → ℚ)
    (rng : Nat → Nat) (t : Nat) :
    runStates g nails target rng (t + 1) =
      stepIter g nails target rng (runStates g nails target rng t) :=
  Function.iterate_succ_apply' _ _ _

theorem pixelScore_spec_form (opacity t c : ℚ) :
    pixelScore opacity t c =
      if t > c then min (t - c) opacity
      else -(1 / 2) * (min 255 (c + opacity) - t) := by
  unfold pixelScore
  split
  · rfl
  · ring

theorem scorePoint_foldl (g : Gen) (target canvas : Int → Int → ℚ) :
    ∀ (pts : List (Int × Int)) (a : ℚ) (k : Nat),
      pts.foldl (scorePoint g target canvas) (a, k) =
        (a + ((pts.filter (fun p => inBounds g.canvas_size p)).map
              (fun p => pixelScore g.line_opacity (target p.2 p.1) (canvas p.2 p.1))).sum,
         k + (pts.filter (fun p => inBounds g.canvas_size p)).length) := by
  intro pts
  induction pts with
  | nil => intro a k; simp
  | cons p ps ih =>
    intro a k
    rw [List.foldl_cons]
    by_cases hb : inBounds g.canvas_size p
    · rw [show scorePoint g target canvas (a, k) p =
          (a + pixelScore g.line_opacity (target p.2 p.1) (canvas p.2 p.1), k + 1) by
            unfold scorePoint; rw [if_pos hb]]
      rw [ih]
      simp [List.filter_cons, hb]
      constructor
      · ring
      · omega
    · rw [show scorePoint g target canvas (a, k) p = (a, k) by
            unfold scorePoint; rw [if_neg hb]]
      rw [ih]
      simp [List.filter_cons, hb]

theorem score_mean_aux (g : Gen) (nails : Nat → Int × Int)
    (target canvas : Int → Int → ℚ) (cache : Cache) (a b : Nat) :
    (calculate_line_score g nails target canvas cache a b).1 =
      (let pts := ((get_line_points g nails cache a b).1).filter
        (fun p => inBounds g.canvas_size p)
       if pts.length = 0 then 0
       else (pts.map (fun p =>
          if target p.2 p.1 > canvas p.2 p.1
          then min (target p.2 p.1 - canvas p.2 p.1) g.line_opacity
          else -(1 / 2) * (min 255 (canvas p.2 p.1 + g.line_opacity) - target p.2 p.1))).sum
            / (pts.length : ℚ)) := by
  unfold calculate_line_score
  by_cases hp : (get_line_points g nails cache a b).1 = []
  · simp [hp]
  · rw [if_neg hp]
    rw [scorePoint_foldl]
    simp only [zero_add, Nat.zero_add]
    by_cases hv : ((get_line_points g nails cache a b).1.filter
        (fun p => inBounds g.canvas_size p)).length = 0
    · simp [hv]
    · simp only [hv, if_neg, ite_false]
      simp only [pixelScore_spec_form]

theorem bresenhamGo_isSome (cs x2 y2 dx dy sx sy : Int)
    (hdx : 0 ≤ dx) (hdy : 0 ≤ dy)
    (hsx : sx = 1 ∨ sx = -1) (hsy : sy = 1 ∨ sy = -1) :
    ∀ (fuel : Nat) (x y err a b : Int) (pts : List (Int × Int)),
      0 ≤ a → a ≤ dx → 0 ≤ b → b ≤ dy →
      x2 - x = sx * (dx - a) → y2 - y = sy * (dy - b) →
      err = (1 + b) * dx - (1 + a) * dy →
      (dx - a) + (dy - b) < (fuel : Int) →
      (bresenhamGo cs x2 y2 dx dy sx sy fuel x y err pts).isSome = true := by
  intro fuel
  induction fuel with
  | zero =>
    intro x y err a b pts ha0 had hb0 hbd hx hy herr hfuel
    exfalso
    push_cast at hfuel
    linarith
  | succ n ih =>
    intro x y err a b pts ha0 had hb0 hbd hx hy herr hfuel
    rw [bresenhamGo]
    by_cases hend : x = x2 ∧ y = y2
    · rw [if_pos hend]
      rfl
    · rw [if_neg hend]
      have hxa : x = x2 ↔ a = dx := by
        rcases hsx with h | h <;> rw [h] at hx <;> constructor <;> intro hh <;> omega
      have hyb : y = y2 ↔ b = dy := by
        rcases hsy with h | h <;> rw [h] at hy <;> constructor <;> intro hh <;> omega
      have hnotboth : ¬(a = dx ∧ b = dy) := by
        intro hh
        exact hend ⟨hxa.mpr hh.1, hyb.mpr hh.2⟩
      have hfuel2 : (dx - a) + (dy - b) < (n : Int) + 1 := by
        push_cast at hfuel
        linarith
      by_cases hc1 : 2 * err > -dy
      · have hax : a < dx := by
          rcases lt_or_eq_of_le had with h | h
          · exact h
          · exfalso
            subst h
            have hbdy : b < dy := by
              rcases lt_or_eq_of_le hbd with h2 | h2
              · exact h2
              · exact absurd ⟨rfl, h2⟩ hnotboth
            have h1 : (1 + b) * a ≤ dy * a :=
              mul_le_mul_of_nonneg_right (by linarith) hdx
            nlinarith
        by_cases hc2 : 2 * err < dx
        · have hby : b < dy := by
            rcases lt_or_eq_of_le hbd with h | h
            · exact h
            · exfalso
              subst h
              have h1 : (1 + a) * b ≤ dx * b :=
                mul_le_mul_of_nonneg_right (by linarith) hdy
              nlinarith
          simp only [if_pos hc1, if_pos hc2]
          exact ih (x + sx) (y + sy) (err - dy + dx) (a + 1) (b + 1) _
            (by linarith) (by linarith) (by linarith) (by linarith)
            (by linear_combination hx) (by linear_combination hy)
            (by linear_combination herr) (by linarith)
        · simp only [if_pos hc1, if_neg hc2]
          exact ih (x + sx) y (err - dy) (a + 1) b _
            (by linarith) (by linarith) hb0 hbd
            (by linear_combination hx) hy
            (by linear_combination herr) (by linarith)
      · by_cases hc2 : 2 * err < dx
        · have hby : b < dy := by
            rcases lt_or_eq_of_le hbd with h | h
            · exact h
            · exfalso
              subst h
              have hadx : a < dx := by
                rcases lt_or_eq_of_le had with h2 | h2
                · exact h2
                · exact absurd ⟨h2, rfl⟩ hnotboth
              have h1 : (1 + a) * b ≤ dx * b :=
                mul_le_mul_of_nonneg_right (by linarith) hdy
              nlinarith
          simp only [if_neg hc1, if_pos hc2]
          exact ih x (y + sy) (err + dx) a (b + 1) _
            ha0 had (by linarith) (by linarith)
            hx (by linear_combination hy)
            (by linear_combination herr) (by linarith)
        · exfalso
          have h1 : dx ≤ 2 * err := by linarith
          have h2 : 2 * err ≤ -dy := by linarith
          have hdx0 : dx = 0 := by linarith
          have hdy0 : dy = 0 := by linarith
          exact hnotboth ⟨by linarith, by linarith⟩

/-- C10: for every pair of integer endpoints the `while True` loop of
`bresenham_line` reaches `(x2, y2)` within `|x2-x1| + |y2-y1| + 1`
passes — with the fuel `bresenham_line` supplies, `bresenhamLoop` never
returns `none`, so rasterisation is a total function of its integer
inputs. -/
theorem bresenhamLoop_terminates (cs x1 y1 x2 y2 : Int) :
    (bresenhamLoop cs x1 y1 x2 y2 ((x2 - x1).natAbs + (y2 - y1).natAbs + 1)).isSome = true := by
  unfold bresenhamLoop
  apply bresenhamGo_isSome cs x2 y2 _ _ _ _
    (Int.natCast_nonneg _) (Int.natCast_nonneg _)
    (by split <;> simp) (by split <;> simp)
    _ x1 y1 _ 0 0 []
    le_rfl (Int.natCast_nonneg _) le_rfl (Int.natCast_nonneg _)
  · split <;> omega
  · split <;> omega
  · ring
  · push_cast
    omega

theorem lookup_cons_self {pts : List (Int × Int)} (key : Nat × Nat) (cache : Cache) :
    List.lookup key ((key, pts) :: cache) = some pts := by
  simp [List.lookup]

/-- C8 (counterexample): the Bresenham point set is not symmetric under
swapping the endpoints — for the endpoint pair (0,0) and (2,1) the two
traversal directions produce different point sets ((1,0) in one, (1,1)
in the other). -/
theorem bresenham_set_not_symmetric :
    (bresenham_line 4 0 0 2 1).toFinset ≠ (bresenham_line 4 2 1 0 0).toFinset := by
  decide

/-- C8 (amended): `get_line_points` normalises the cache key to
`(min a b, max a b)`, so once one traversal order has been rasterised and
cached, querying the opposite order returns the identical cached point
sequence. -/
theorem get_line_points_cache_symmetric (g : Gen) (nails : Nat → Int × Int)
    (cache : Cache) (a b : Nat) :
    (get_line_points g nails ((get_line_points g nails cache a b).2) b a).1 =
      (get_line_points g nails cache a b).1 := by
  unfold get_line_points
  have hkey : (min b a, max b a) = (min a b, max a b) := by
    rw [min_comm, max_comm]
  rcases h : List.lookup (min a b, max a b) cache with _ | pts
  · simp only [h]
    simp only [hkey, h]
    rw [lookup_cons_self]
  · simp only [h]
    simp only [hkey, h]

theorem scanFold_best (g : Gen) (nails : Nat → Int × Int)
    (target canvas : Int → Int → ℚ) (recent : List (Nat × Nat)) (current : Nat)
    (P : Nat → ℚ → Prop)
    (hP : ∀ t c, t ≠ current → is_valid_connection g current t = true →
        (min current t, max current t) ∉ recent →
        P t (calculate_line_score g nails target canvas c current t).1) :
    ∀ (l : List Nat) (acc : Option (Nat × ℚ) × Cache),
      (∀ bn bs, acc.1 = some (bn, bs) → P bn bs) →
      ∀ bn bs,
        (l.foldl (scanStep g nails target canvas recent current) acc).1 = some (bn, bs) →
        P bn bs := by
  intro l
  induction l with
  | nil =>
    intro acc hacc bn bs h
    exact hacc bn bs h
  | cons t ts ih =>
    intro acc hacc bn bs h
    rw [List.foldl_cons] at h
    refine ih (scanStep g nails target canvas recent current acc t) ?_ bn bs h
    intro bn2 bs2 hsome
    unfold scanStep at hsome
    by_cases h1 : t = current
    · rw [if_pos h1] at hsome
      exact hacc _ _ hsome
    · rw [if_neg h1] at hsome
      by_cases h2 : is_valid_connection g current t = true
      · rw [if_pos h2] at hsome
        by_cases h3 : (min current t, max current t) ∈ recent
        · rw [if_pos h3] at hsome
          exact hacc _ _ hsome
        · rw [if_neg h3] at hsome
          rcases hacc1 : acc.1 with _ | ⟨bn0, bs0⟩
          · rw [hacc1] at hsome
            simp only [Option.some.injEq, Prod.mk.injEq] at hsome
            obtain ⟨h4, h5⟩ := hsome
            rw [← h4, ← h5]
            exact hP t acc.2 h1 h2 h3
          · rw [hacc1] at hsome
            by_cases h4 : (calculate_line_score g nails target canvas acc.2 current t).1 > bs0
            · simp only [if_pos h4, Option.some.injEq, Prod.mk.injEq] at hsome
              obtain ⟨h5, h6⟩ := hsome
              rw [← h5, ← h6]
              exact hP t acc.2 h1 h2 h3
            · simp only [if_neg h4, Option.some.injEq, Prod.mk.injEq] at hsome
              obtain ⟨h5, h6⟩ := hsome
              rw [← h5, ← h6]
              exact hacc _ _ hacc1
      · rw [if_neg h2] at hsome
        exact hacc _ _ hsome

theorem scanCandidates_best (g : Gen) (nails : Nat → Int × Int)
    (target canvas : Int → Int → ℚ) (recent : List (Nat × Nat)) (current : Nat)
    (cache : Cache) (P : Nat → ℚ → Prop)
    (hP : ∀ t c, t ≠ current → is_valid_connection g current t = true →
        (min current t, max current t) ∉ recent →
        P t (calculate_line_score g nails target canvas c current t).1) :
    ∀ bn bs, (scanCandidates g nails target canvas recent current cache).1 = some (bn, bs) →
      P bn bs := by
  intro bn bs h
  refine scanFold_best g nails target canvas recent current P hP
    (List.range g.num_nails) (none, cache) ?_ bn bs h
  intro bn2 bs2 hh
  simp at hh

theorem list_sum_nonpos : ∀ {l : List ℚ}, (∀ x ∈ l, x ≤ 0) → l.sum ≤ 0 := by
  intro l
  induction l with
  | nil => intro _; simp
  | cons x xs ih =>
    intro h
    rw [List.sum_cons]
    have h1 := h x (List.mem_cons_self x xs)
    have h2 := ih (fun y hy => h y (List.mem_cons_of_mem x hy))
    linarith

theorem calculate_line_score_nonpos (g : Gen) (nails : Nat → Int × Int)
    (target canvas : Int → Int → ℚ) (cache : Cache) (c t : Nat)
    (htar : ∀ y x, target y x = 0) (hcan : ∀ y x, canvas y x = 0)
    (hop : 0 ≤ g.line_opacity) :
    (calculate_line_score g nails target canvas cache c t).1 ≤ 0 := by
  rw [score_mean_aux]
  simp only
  by_cases hv : ((get_line_points g nails cache c t).1.filter
      (fun p => inBounds g.canvas_size p)).length = 0
  · rw [if_pos hv]
  · rw [if_neg hv]
    apply div_nonpos_iff.mpr
    refine Or.inr ⟨?_, by positivity⟩
    apply list_sum_nonpos
    intro x hx
    obtain ⟨p, _, hpx⟩ := List.mem_map.mp hx
    rw [← hpx, htar, hcan]
    have h0 : ¬((0 : ℚ) > 0) := lt_irrefl 0
    rw [if_neg h0]
    have h1 : (0 : ℚ) ≤ min 255 (0 + g.line_opacity) := by
      apply le_min
      · norm_num
      · linarith
    nlinarith

/-- C1: the score returned by `calculate_line_score` is the arithmetic
mean, over the line's in-bounds pixels, of the contribution
`min(target - current, opacity)` when `target > current` and
`-0.5 * (min(255, current + opacity) - target)` otherwise; a line with
zero in-bounds pixels scores 0. -/
theorem calculate_line_score_is_mean (g : Gen) (nails : Nat → Int × Int)
    (target canvas : Int → Int → ℚ) (cache : Cache) (a b : Nat) :
    (calculate_line_score g nails target canvas cache a b).1 =
      (let pts := ((get_line_points g nails cache a b).1).filter
        (fun p => inBounds g.canvas_size p)
       if pts.length = 0 then 0
       else (pts.map (fun p =>
          if target p.2 p.1 > canvas p.2 p.1
          then min (target p.2 p.1 - canvas p.2 p.1) g.line_opacity
          else -(1 / 2) * (min 255 (canvas p.2 p.1 + g.line_opacity) - target p.2 p.1))).sum
            / (pts.length : ℚ)) :=
  score_mean_aux g nails target canvas cache a b

theorem stepNoGood_paths (g : Gen) (rng : Nat → Nat) (st : LoopState) (cache : Cache) :
    (stepNoGood g rng st cache).paths = st.paths := rfl

theorem stepNoGood_canvas (g : Gen) (rng : Nat → Nat) (st : LoopState) (cache : Cache) :
    (stepNoGood g rng st cache).canvas = st.canvas := rfl

theorem stepNoGood_commits (g : Gen) (rng : Nat → Nat) (st : LoopState) (cache : Cache) :
    (stepNoGood g rng st cache).commits = st.commits := rfl

theorem stepNoGood_itersRun (g : Gen) (rng : Nat → Nat) (st : LoopState) (cache : Cache) :
    (stepNoGood g rng st cache).itersRun = st.itersRun := rfl

theorem commitStep_paths (g : Gen) (nails : Nat → Int × Int) (st : LoopState)
    (bn : Nat) (cache : Cache) :
    (commitStep g nails st bn cache).paths = st.paths ++ [(st.current_nail, bn)] := rfl

theorem commitStep_canvas (g : Gen) (nails : Nat → Int × Int) (st : LoopState)
    (bn : Nat) (cache : Cache) :
    (commitStep g nails st bn cache).canvas =
      drawLine g.canvas_size g.line_opacity st.canvas
        (get_line_points g nails cache st.current_nail bn).1 := rfl

theorem commitStep_current (g : Gen) (nails : Nat → Int × Int) (st : LoopState)
    (bn : Nat) (cache : Cache) :
    (commitStep g nails st bn cache).current_nail = bn := rfl

theorem commitStep_commits (g : Gen) (nails : Nat → Int × Int) (st : LoopState)
    (bn : Nat) (cache : Cache) :
    (commitStep g nails st bn cache).commits = st.commits + 1 := rfl

theorem commitStep_terminated (g : Gen) (nails : Nat → Int × Int) (st : LoopState)
    (bn : Nat) (cache : Cache) :
    (commitStep g nails st bn cache).terminated = st.terminated := rfl

theorem commitStep_itersRun (g : Gen) (nails : Nat → Int × Int) (st : LoopState)
    (bn : Nat) (cache : Cache) :
    (commitStep g nails st bn cache).itersRun = st.itersRun := rfl

/-- C3 (amended): on an all-zero darkness target no candidate score ever
exceeds `min_score_threshold`, so no line is ever committed and the
returned path is empty, for every generator with non-negative opacity,
every nail table and every random stream. -/
theorem allzero_target_empty_path (g : Gen) (nails : Nat → Int × Int)
    (target : Int → Int → ℚ) (rng : Nat → Nat)
    (htar : ∀ y x, target y x = 0) (hop : 0 ≤ g.line_opacity) :
    (generate_string_art_greedy g nails target rng).paths = [] := by
  suffices h : ∀ t, (runStates g nails target rng t).paths = [] ∧
      (∀ y x, (runStates g nails target rng t).canvas y x = 0) from (h g.max_lines).1
  intro t
  induction t with
  | zero => exact ⟨rfl, fun y x => rfl⟩
  | succ n ih =>
    obtain ⟨hpaths, hcanvas⟩ := ih
    rw [runStates_succ]
    set st := runStates g nails target rng n with hst
    unfold stepIter
    by_cases hT : st.terminated = true
    · rw [if_pos hT]
      exact ⟨hpaths, hcanvas⟩
    · rw [if_neg hT]
      split
      · rename_i bn bs cache2 heq
        have hbs : bs ≤ 0 := by
          refine scanCandidates_best g nails target st.canvas st.recent st.current_nail
            st.cache (fun _ s => s ≤ 0) ?_ bn bs (by rw [heq])
          intro t2 c2 h1 h2 h3
          exact calculate_line_score_nonpos g nails target st.canvas c2
            st.current_nail t2 htar hcanvas hop
        have hlt : ¬(bs > min_score_threshold) := by
          unfold min_score_threshold
          intro hh
          linarith
        rw [if_neg hlt]
        exact ⟨hpaths, hcanvas⟩
      · exact ⟨hpaths, hcanvas⟩

attribute [local semireducible] Rat.add Rat.mul Rat.inv Rat.sub in
set_option maxRecDepth 200000 in
/-- C2: run on the all-zero target with `max_lines = 150`: every one of
the 150 iterations fails the score threshold (no commit ever happens, so
the cumulative low-score streak since the last commit reaches 150 > 100),
yet the loop executes all 150 iterations — the `break` bound is never
reached because `low_score_count` is reset to 0 by the stuck-jump branch
before the `> 100` test can succeed. -/
theorem low_score_break_never_fires :
    (generate_string_art_greedy (gSmall 150) nailsABC target0 rngZero).itersRun = 150 ∧
    (generate_string_art_greedy (gSmall 150) nailsABC target0 rngZero).commits = 0 ∧
    (generate_string_art_greedy (gSmall 150) nailsABC target0 rngZero).paths = [] := by
  decide

attribute [local semireducible] Rat.add Rat.mul Rat.inv Rat.sub in
set_option maxRecDepth 200000 in
/-- C3 (counterexample): on the all-zero target with `max_lines = 120`
the loop does not terminate immediately after failing the threshold on
iteration 1 — it executes all 120 iterations (while still producing the
empty path). -/
theorem allzero_target_does_not_stop_immediately :
    (generate_string_art_greedy (gSmall 120) nailsABC target0 rngZero).itersRun = 120 ∧
    ¬((generate_string_art_greedy (gSmall 120) nailsABC target0 rngZero).itersRun ≤ 1) := by
  decide

attribute [local semireducible] Rat.add Rat.mul Rat.inv Rat.sub in
/-- C3 (witness): the amended theorem applied to the concrete all-zero
run `gSmall 2`. -/
theorem allzero_target_empty_path_witness :
    (∀ y x : Int, target0 y x = 0) ∧ (0 : ℚ) ≤ (gSmall 2).line_opacity ∧
    (generate_string_art_greedy (gSmall 2) nailsABC target0 rngZero).paths = [] :=
  ⟨fun _ _ => rfl, by norm_num [gSmall],
    allzero_target_empty_path (gSmall 2) nailsABC target0 rngZero (fun _ _ => rfl)
      (by norm_num [gSmall])⟩

attribute [local semireducible] Rat.add Rat.mul Rat.inv Rat.sub in
set_option maxRecDepth 200000 in
/-- C4 (counterexample): a concrete run in which a stuck random jump
occurs between two commits: the committed path is
[(0,1), (1,2), (2,0), (2,0)], whose last entry starts at nail 2 while
the previous entry ended at nail 0 — the path is not a single continuous
thread walk. -/
theorem committed_path_not_chained :
    isChained (generate_string_art_greedy (gSmall 55) nailsABC target255 rngC4).paths = false := by
  decide

/-- C4 (amended): each loop iteration either leaves the path unchanged or
appends a single entry whose startIndex is the current nail at commit
time and whose endIndex becomes the new current nail; consecutive
committed entries therefore chain exactly when no random jump changed
`current_nail` in between (a jump alters `current_nail` without
appending). -/
theorem step_appends_from_current_nail (g : Gen) (nails : Nat → Int × Int)
    (target : Int → Int → ℚ) (rng : Nat → Nat) (st : LoopState) :
    (stepIter g nails target rng st).paths = st.paths ∨
    (∃ e, (stepIter g nails target rng st).paths = st.paths ++ [(st.current_nail, e)] ∧
      (stepIter g nails target rng st).current_nail = e) := by
  unfold stepIter
  by_cases hT : st.terminated = true
  · rw [if_pos hT]
    left
    rfl
  · rw [if_neg hT]
    split
    · rename_i bn bs cache2 heq
      by_cases hbs : bs > min_score_threshold
      · rw [if_pos hbs]
        right
        exact ⟨bn, rfl, rfl⟩
      · rw [if_neg hbs]
        left
        rfl
    · left
      rfl

theorem run_paths_valid (g : Gen) (nails : Nat → Int × Int)
    (target : Int → Int → ℚ) (rng : Nat → Nat) :
    ∀ t p, p ∈ (runStates g nails target rng t).paths →
      is_valid_connection g p.1 p.2 = true := by
  intro t
  induction t with
  | zero =>
    intro p hp
    exact absurd hp (List.not_mem_nil p)
  | succ n ih =>
    intro p hp
    rw [runStates_succ] at hp
    set st := runStates g nails target rng n with hst
    unfold stepIter at hp
    by_cases hT : st.terminated = true
    · rw [if_pos hT] at hp
      exact ih p hp
    · rw [if_neg hT] at hp
      split at hp
      · rename_i bn bs cache2 heq
        by_cases hbs : bs > min_score_threshold
        · rw [if_pos hbs] at hp
          rw [commitStep_paths] at hp
          rw [List.mem_append] at hp
          rcases hp with hp | hp
          · exact ih p hp
          · rw [List.mem_singleton] at hp
            subst hp
            refine scanCandidates_best g nails target st.canvas st.recent st.current_nail
              st.cache (fun tn _ => is_valid_connection g st.current_nail tn = true) ?_
              bn bs (by rw [heq])
            intro t2 c2 h1 h2 h3
            exact h2
        · rw [if_neg hbs] at hp
          rw [stepNoGood_paths] at hp
          exact ih p hp
      · rw [stepNoGood_paths] at hp
        exact ih p hp

/-- C5: every entry (s, e) committed to the path in a run with
`num_nails` nails and minimum separation `min_distance` satisfies the
circular distance invariant
`min(|s - e|, num_nails - |s - e|) ≥ min_distance`. -/
theorem path_entries_respect_min_distance (g : Gen) (nails : Nat → Int × Int)
    (target : Int → Int → ℚ) (rng : Nat → Nat) (s e : Nat)
    (h : (s, e) ∈ (generate_string_art_greedy g nails target rng).paths) :
    g.min_distance ≤
      min |(e : Int) - (s : Int)| ((g.num_nails : Int) - |(e : Int) - (s : Int)|) := by
  have hv := run_paths_valid g nails target rng g.max_lines (s, e) h
  unfold is_valid_connection at hv
  exact of_decide_eq_true hv

attribute [local semireducible] Rat.add Rat.mul Rat.inv Rat.sub in
/-- C5 (witness): the theorem applied to the single-commit run
`gSmall 1`, whose path is [(0, 1)]. -/
theorem path_entries_respect_min_distance_witness :
    ((0, 1) ∈ (generate_string_art_greedy (gSmall 1) nailsABC target255 rngZero).paths) ∧
    (gSmall 1).min_distance ≤
      min |((1 : Nat) : Int) - ((0 : Nat) : Int)|
        (((gSmall 1).num_nails : Int) - |((1 : Nat) : Int) - ((0 : Nat) : Int)|) :=
  ⟨by decide, path_entries_respect_min_distance (gSmall 1) nailsABC target255 rngZero 0 1
    (by decide)⟩

theorem drawPoint_le (cs : Int) (op : ℚ) (hop : 0 ≤ op) (canvas : Int → Int → ℚ)
    (p : Int × Int) (hc : ∀ y x, canvas y x ≤ 255) :
    ∀ y x, canvas y x ≤ drawPoint cs op canvas p y x ∧ drawPoint cs op canvas p y x ≤ 255 := by
  intro y x
  unfold drawPoint
  by_cases hb : inBounds cs p
  · rw [if_pos hb]
    by_cases hyx : y = p.2 ∧ x = p.1
    · simp only [if_pos hyx]
      obtain ⟨hy, hx⟩ := hyx
      rw [hy, hx]
      constructor
      · exact le_min (hc p.2 p.1) (by linarith [hc p.2 p.1])
      · exact min_le_left _ _
    · simp only [if_neg hyx]
      exact ⟨le_rfl, hc y x⟩
  · rw [if_neg hb]
    exact ⟨le_rfl, hc y x⟩

theorem drawLine_le (cs : Int) (op : ℚ) (hop : 0 ≤ op) :
    ∀ (pts : List (Int × Int)) (canvas : Int → Int → ℚ),
      (∀ y x, canvas y x ≤ 255) →
      ∀ y x, canvas y x ≤ drawLine cs op canvas pts y x ∧
        drawLine cs op canvas pts y x ≤ 255 := by
  intro pts
  induction pts with
  | nil =>
    intro canvas hc y x
    exact ⟨le_rfl, hc y x⟩
  | cons p ps ih =>
    intro canvas hc y x
    have h1 := drawPoint_le cs op hop canvas p hc
    have h2 := ih (drawPoint cs op canvas p) (fun yy xx => (h1 yy xx).2) y x
    unfold drawLine at h2 ⊢
    rw [List.foldl_cons]
    exact ⟨le_trans (h1 y x).1 h2.1, h2.2⟩

theorem stepIter_canvas_le (g : Gen) (nails : Nat → Int × Int)
    (target : Int → Int → ℚ) (rng : Nat → Nat) (st : LoopState)
    (hop : 0 ≤ g.line_opacity) (hc : ∀ y x, st.canvas y x ≤ 255) :
    ∀ y x, st.canvas y x ≤ (stepIter g nails target rng st).canvas y x ∧
      (stepIter g nails target rng st).canvas y x ≤ 255 := by
  intro y x
  unfold stepIter
  by_cases hT : st.terminated = true
  · rw [if_pos hT]
    exact ⟨le_rfl, hc y x⟩
  · rw [if_neg hT]
    split
    · rename_i bn bs cache2 heq
      by_cases hbs : bs > min_score_threshold
      · rw [if_pos hbs]
        rw [commitStep_canvas]
        exact drawLine_le g.canvas_size g.line_opacity hop _ st.canvas hc y x
      · rw [if_neg hbs]
        rw [stepNoGood_canvas]
        exact ⟨le_rfl, hc y x⟩
    · rw [stepNoGood_canvas]
      exact ⟨le_rfl, hc y x⟩

theorem run_canvas_le (g : Gen) (nails : Nat → Int × Int)
    (target : Int → Int → ℚ) (rng : Nat → Nat) (hop : 0 ≤ g.line_opacity) :
    ∀ t y x, (runStates g nails target rng t).canvas y x ≤ 255 := by
  intro t
  induction t with
  | zero =>
    intro y x
    show (0 : ℚ) ≤ 255
    norm_num
  | succ n ih =>
    intro y x
    rw [runStates_succ]
    exact (stepIter_canvas_le g nails target rng _ hop ih y x).2

/-- C6: over any run with non-negative opacity, every canvas value is
monotonically non-decreasing from each iteration to the next and never
exceeds 255 (a committed line sets each of its in-bounds pixels to
`min(255, value + opacity)`; no operation decreases a value). -/
theorem canvas_monotone_and_bounded (g : Gen) (nails : Nat → Int × Int)
    (target : Int → Int → ℚ) (rng : Nat → Nat) (hop : 0 ≤ g.line_opacity)
    (t : Nat) (y x : Int) :
    (runStates g nails target rng t).canvas y x ≤
      (runStates g nails target rng (t + 1)).canvas y x ∧
    (runStates g nails target rng t).canvas y x ≤ 255 := by
  constructor
  · rw [runStates_succ]
    exact (stepIter_canvas_le g nails target rng _ hop
      (run_canvas_le g nails target rng hop t) y x).1
  · exact run_canvas_le g nails target rng hop t y x

attribute [local semireducible] Rat.add Rat.mul Rat.inv Rat.sub in
/-- C6 (witness): the theorem applied to the concrete run `gSmall 1` at
iteration 0 and pixel (0, 0). -/
theorem canvas_monotone_and_bounded_witness :
    (0 : ℚ) ≤ (gSmall 1).line_opacity ∧
    ((runStates (gSmall 1) nailsABC target255 rngZero 0).canvas 0 0 ≤
       (runStates (gSmall 1) nailsABC target255 rngZero 1).canvas 0 0 ∧
     (runStates (gSmall 1) nailsABC target255 rngZero 0).canvas 0 0 ≤ 255) :=
  ⟨by norm_num [gSmall],
    canvas_monotone_and_bounded (gSmall 1) nailsABC target255 rngZero
      (by norm_num [gSmall]) 0 0 0⟩

theorem run_length_commits (g : Gen) (nails : Nat → Int × Int)
    (target : Int → Int → ℚ) (rng : Nat → Nat) :
    ∀ t, (runStates g nails target rng t).paths.length ≤ t ∧
      (runStates g nails target rng t).paths.length =
        (runStates g nails target rng t).commits := by
  intro t
  induction t with
  | zero => exact ⟨le_rfl, rfl⟩
  | succ n ih =>
    obtain ⟨ih1, ih2⟩ := ih
    rw [runStates_succ]
    set st := runStates g nails target rng n with hst
    unfold stepIter
    by_cases hT : st.terminated = true
    · rw [if_pos hT]
      exact ⟨le_trans ih1 (Nat.le_succ n), ih2⟩
    · rw [if_neg hT]
      split
      · rename_i bn bs cache2 heq
        by_cases hbs : bs > min_score_threshold
        · rw [if_pos hbs]
          rw [commitStep_paths, commitStep_commits]
          rw [List.length_append]
          constructor
          · simpa using Nat.add_le_add_right ih1 1
          · simpa using ih2
        · rw [if_neg hbs]
          rw [stepNoGood_paths, stepNoGood_commits]
          exact ⟨le_trans ih1 (Nat.le_succ n), ih2⟩
      · rw [stepNoGood_paths, stepNoGood_commits]
        exact ⟨le_trans ih1 (Nat.le_succ n), ih2⟩

/-- C7: at every iteration count `t ≤ max_lines` of a run the committed
path has length at most `max_lines`, and the final path length equals
the number of successful commits (not the number of loop iterations). -/
theorem path_length_bounded (g : Gen) (nails : Nat → Int × Int)
    (target : Int → Int → ℚ) (rng : Nat → Nat) (t : Nat) (ht : t ≤ g.max_lines) :
    (runStates g nails target rng t).paths.length ≤ g.max_lines ∧
    (generate_string_art_greedy g nails target rng).paths.length =
      (generate_string_art_greedy g nails target rng).commits :=
  ⟨le_trans (run_length_commits g nails target rng t).1 ht,
    (run_length_commits g nails target rng g.max_lines).2⟩

attribute [local semireducible] Rat.add Rat.mul Rat.inv Rat.sub in
/-- C7 (witness): the theorem applied to the run `gSmall 1` at t = 1. -/
theorem path_length_bounded_witness :
    (1 ≤ (gSmall 1).max_lines) ∧
    ((runStates (gSmall 1) nailsABC target255 rngZero 1).paths.length ≤ (gSmall 1).max_lines ∧
     (generate_string_art_greedy (gSmall 1) nailsABC target255 rngZero).paths.length =
       (generate_string_art_greedy (gSmall 1) nailsABC target255 rngZero).commits) :=
  ⟨by decide, path_length_bounded (gSmall 1) nailsABC target255 rngZero 1 (by decide)⟩

theorem run_never_terminated (g : Gen) (nails : Nat → Int × Int)
    (target : Int → Int → ℚ) (rng : Nat → Nat) :
    ∀ t, (runStates g nails target rng t).terminated = false ∧
      (runStates g nails target rng t).low_score_count ≤ 50 ∧
      (runStates g nails target rng t).itersRun = t := by
  intro t
  induction t with
  | zero => exact ⟨rfl, by norm_num [runStates, initState], rfl⟩
  | succ n ih =>
    obtain ⟨ihT, ihL, ihI⟩ := ih
    rw [runStates_succ]
    set st := runStates g nails target rng n with hst
    unfold stepIter
    rw [if_neg (by rw [ihT]; simp)]
    split
    · rename_i bn bs cache2 heq
      by_cases hbs : bs > min_score_threshold
      · rw [if_pos hbs]
        rw [commitStep_terminated, commitStep_itersRun]
        refine ⟨ihT, ?_, by rw [ihI]⟩
        show (0 : Nat) ≤ 50
        norm_num
      · rw [if_neg hbs]
        unfold stepNoGood
        by_cases hj : st.low_score_count + 1 > 50
        · simp only [if_pos hj]
          exact ⟨by norm_num, by norm_num, by rw [ihI]⟩
        · simp only [if_neg hj]
          refine ⟨?_, by omega, by rw [ihI]⟩
          have : ¬(st.low_score_count + 1 > 100) := by omega
          simp [this]
    · unfold stepNoGood
      by_cases hj : st.low_score_count + 1 > 50
      · simp only [if_pos hj]
        exact ⟨by norm_num, by norm_num, by rw [ihI]⟩
      · simp only [if_neg hj]
        refine ⟨?_, by omega, by rw [ihI]⟩
        have : ¬(st.low_score_count + 1 > 100) := by omega
        simp [this]

/-- C9 (amended): the core performs no parameter validation — for every
parameter set with at least one nail, valid or not, the stored fields are
used exactly as given and the synthesis loop runs its full `max_lines`
iterations; no configuration is ever rejected before the loop. -/
theorem loop_runs_for_any_parameters (g : Gen) (nails : Nat → Int × Int)
    (target : Int → Int → ℚ) (rng : Nat → Nat) (hn : 1 ≤ g.num_nails) :
    (generate_string_art_greedy g nails target rng).itersRun = g.max_lines :=
  (run_never_terminated g nails target rng g.max_lines).2.2

attribute [local semireducible] Rat.add Rat.mul Rat.inv Rat.sub in
set_option maxRecDepth 200000 in
/-- C9 (counterexample): the invalid parameter set `num_nails = 1` is
not rejected: `__init__` stores it unchanged (no clamping) and the
synthesis loop starts and executes all 5 of its iterations, returning an
ordinary empty-path result instead of a configuration error. -/
theorem invalid_parameters_not_rejected :
    gInvalid.num_nails = 1 ∧
    (generate_string_art_greedy gInvalid nailsABC target255 rngZero).itersRun = 5 ∧
    (generate_string_art_greedy gInvalid nailsABC target255 rngZero).paths = [] := by
  decide

attribute [local semireducible] Rat.add Rat.mul Rat.inv Rat.sub in
/-- C9 (witness): the amended theorem applied to the run `gSmall 1`. -/
theorem loop_runs_for_any_parameters_witness :
    1 ≤ (gSmall 1).num_nails ∧
    (generate_string_art_greedy (gSmall 1) nailsABC target255 rngZero).itersRun =
      (gSmall 1).max_lines :=
  ⟨by decide, loop_runs_for_any_parameters (gSmall 1) nailsABC target255 rngZero (by decide)⟩
